import Mathlib

/-!
Verification of the interface-partitioning and implementation-coverage
analyzer (`storage_phase1_analysis.py`).

Program text is modelled as `List Char`.  Every definition below is a
direct transcription of the corresponding Python construct:

* `pyStrip`     — `str.strip()`
* `splitNl`     — `str.split('\n')`
* `pySplitWs`   — `str.split()` (split on whitespace runs, no empties)
* `hasSub`      — the Python `in` substring test
* `searchClass` — `re.search(rf'class\s+NAME.*?\x7b(.*)\n\x7d', text, re.S)`
  with Python's leftmost search, greedy `\s+` (with backtracking), lazy
  `.*?` and greedy `(.*)`: the capture runs from the first opening brace
  after the class name to the LAST newline-brace pair in the text
* `searchInterfaceBody` — `re.search(r'export interface IStorage \x7b(.*)\n\x7d', ..., re.S)`
* `methodNameOfLine` — the body of the per-line loop of `extract_methods`
* `buildSections` — the `sections` OrderedDict loop
* `reportOf` / `contractsOf` — the `REPORT_LINES` / `contracts_lines` builders

`extract_methods` in Python returns a `set` that is consumed exclusively
through membership tests; it is modelled by the list of scanned names,
which has exactly the same membership.
-/

/-- Characters of a string literal; the base representation of program text. -/
def str (s : String) : List Char := s.data

/-- Python whitespace (`\s` for ASCII and `str.strip` / `str.split`). -/
def isPySpace (c : Char) : Bool :=
  c == ' ' || c == '\t' || c == '\n' || c == '\r' || c == '\x0b' || c == '\x0c'

/-- `str.strip()`: drop leading and trailing whitespace. -/
def pyStrip (s : List Char) : List Char :=
  ((s.dropWhile isPySpace).reverse.dropWhile isPySpace).reverse

/-- `a.startswith(p)` — `beginsWith p a`. -/
def beginsWith : List Char → List Char → Bool
  | [], _ => true
  | _ :: _, [] => false
  | p :: ps, c :: cs => p == c && beginsWith ps cs

/-- The Python substring test `pat in s`. -/
def hasSub (pat : List Char) : List Char → Bool
  | [] => beginsWith pat []
  | c :: cs => beginsWith pat (c :: cs) || hasSub pat cs

/-- `str.split(sep)` for a one-character separator (empty parts kept). -/
def splitOnCh (sep : Char) : List Char → List (List Char)
  | [] => [[]]
  | c :: cs =>
    if c == sep then [] :: splitOnCh sep cs
    else
      match splitOnCh sep cs with
      | [] => [[c]]
      | t :: ts => (c :: t) :: ts

/-- `str.split('\n')`. -/
def splitNl (s : List Char) : List (List Char) := splitOnCh '\n' s

/-- Worker for `str.split()` with no separator: `acc` is the current token,
reversed. -/
def wsTokensGo : List Char → List Char → List (List Char)
  | acc, [] => if acc = [] then [] else [acc.reverse]
  | acc, c :: cs =>
    if isPySpace c then
      if acc = [] then wsTokensGo [] cs else acc.reverse :: wsTokensGo [] cs
    else wsTokensGo (c :: acc) cs

/-- `str.split()`: split on whitespace runs, discarding empty tokens. -/
def pySplitWs (s : List Char) : List (List Char) := wsTokensGo [] s

/-- A character matched by the regex class `[a-zA-Z0-9_]`. -/
def identChar (c : Char) : Bool :=
  (decide ('a' ≤ c) && decide (c ≤ 'z')) ||
  (decide ('A' ≤ c) && decide (c ≤ 'Z')) ||
  (decide ('0' ≤ c) && decide (c ≤ '9')) || c == '_'

/-- `', '.join` and friends: join parts with a separator. -/
def joinSep (sep : List Char) : List (List Char) → List Char
  | [] => []
  | [x] => x
  | x :: y :: rest => x ++ sep ++ joinSep sep (y :: rest)

/-- List membership as a boolean, modelling Python `in` on a set of names. -/
def elemL (n : List Char) (v : List (List Char)) : Bool :=
  v.any (fun m => decide (m = n))

/-- Decimal digit character. -/
def digitChar (d : Nat) : Char := Char.ofNat (48 + d)

/-- Fuel-driven decimal rendering worker. -/
def natDigitsAux : Nat → Nat → List Char
  | 0, _ => []
  | fuel + 1, n => if n = 0 then [] else natDigitsAux fuel (n / 10) ++ [digitChar (n % 10)]

/-- Decimal rendering of a natural number, as produced by the f-strings. -/
def natToChars (n : Nat) : List Char :=
  if n = 0 then ['0'] else natDigitsAux n n

/-- `re.match(r'([a-zA-Z0-9_]+)\(', line)`: a maximal nonempty identifier
run at the start of the line, immediately followed by `(`; yields the
identifier (group 1).  This is the signature scanner for interface lines. -/
def sigName (s : List Char) : Option (List Char) :=
  let i := s.takeWhile identChar
  match i, s.drop i.length with
  | _ :: _, '(' :: _ => some i
  | _, _ => none

/-- The `.*\)\s*\x7b` tail of the synchronous-declaration regex: somewhere in
the remaining line there is a `)` whose first following non-whitespace
character is `\x7b`. -/
def closeThenBrace : List Char → Bool
  | [] => false
  | c :: cs =>
    (c == ')' &&
      (match cs.dropWhile isPySpace with
       | '\x7b' :: _ => true
       | _ => false)) || closeThenBrace cs

/-- `re.match(r'[a-zA-Z0-9_]+\(.*\)\s*\x7b', stripped)`. -/
def syncDecl (s : List Char) : Bool :=
  let i := s.takeWhile identChar
  match i, s.drop i.length with
  | _ :: _, '(' :: rest => closeThenBrace rest
  | _, _ => false

/-- The per-line body of the `extract_methods` loop: skip blank lines and
`//` comments; an `async `-prefixed line contributes the last
whitespace-token before the first `(`; otherwise a line matching the
synchronous shape and containing neither `constructor` nor `async`
contributes its leading identifier. -/
def methodNameOfLine (raw : List Char) : Option (List Char) :=
  let stripped := pyStrip raw
  if stripped = [] then none
  else if beginsWith (str ("//")) stripped then none
  else if beginsWith (str ("async ")) stripped then
    (pySplitWs (stripped.takeWhile (fun c => !(c == '(')))).getLast?
  else if syncDecl stripped && !(hasSub (str ("constructor")) stripped)
          && !(hasSub (str ("async")) stripped) then
    some (stripped.takeWhile (fun c => !(c == '(')))
  else none

/-- Prefix of the capture group `(.*)` of the class regex: everything before
the LAST occurrence of the two-character sequence newline-`\x7d` (greedy
`(.*)` under `re.S`); `none` if that sequence never occurs. -/
def cutLastNlBrace : List Char → Option (List Char)
  | [] => none
  | c :: rest =>
    match cutLastNlBrace rest with
    | some r => some (c :: r)
    | none =>
      if c = '\n' ∧ rest.head? = some '\x7d' then some [] else none

/-- Backtracking for `\s+`: try whitespace-run lengths `k, k-1, …, 1` and
return the remainder after the first placement of `name` that fits. -/
def tryKs (name rest : List Char) : Nat → Option (List Char)
  | 0 => none
  | k + 1 =>
    if beginsWith name (rest.drop (k + 1)) then
      some ((rest.drop (k + 1)).drop name.length)
    else tryKs name rest k

/-- Head of the class regex at the current position: literal `class`, then
`\s+` (greedy, with backtracking), then the class name; returns the
remainder after the name. -/
def classHeadMatch (name s : List Char) : Option (List Char) :=
  if beginsWith (str ("class")) s then
    let rest := s.drop 5
    tryKs name rest (rest.takeWhile isPySpace).length
  else none

/-- `.*?\x7b(.*)\n\x7d` after the class name: lazily find the first opening
brace, then capture greedily up to the last newline-brace pair. -/
def completeFrom (rest : List Char) : Option (List Char) :=
  match rest.dropWhile (fun c => !(c == '\x7b')) with
  | [] => none
  | _ :: inner => cutLastNlBrace inner

/-- `re.search(rf'class\s+NAME.*?\x7b(.*)\n\x7d', text, re.S)`: leftmost
position where the head matches and the capture completes. -/
def searchClass (name : List Char) : List Char → Option (List Char)
  | [] => none
  | c :: cs =>
    match classHeadMatch name (c :: cs) with
    | some rest =>
      match completeFrom rest with
      | some blk => some blk
      | none => searchClass name cs
    | none => searchClass name cs

/-- `re.search` for a literal head followed by `(.*)\n\x7d`: leftmost
occurrence of the literal after which a newline-brace pair still occurs;
capture greedily up to the last one. -/
def searchLit (lit : List Char) : List Char → Option (List Char)
  | [] => none
  | c :: cs =>
    if beginsWith lit (c :: cs) then
      match cutLastNlBrace ((c :: cs).drop lit.length) with
      | some b => some b
      | none => searchLit lit cs
    else searchLit lit cs

/-- `re.search(r'export interface IStorage \x7b(.*)\n\x7d', interface_text, re.S)`. -/
def searchInterfaceBody (t : List Char) : Option (List Char) :=
  searchLit (str ("export interface IStorage \x7b")) t

/-- `extract_methods(text, class_name)`: empty when the regex finds no
match, otherwise the names scanned from the lines of the capture.  The
Python `set` result is consumed only through membership tests and is
represented by the list of scanned names. -/
def extract_methods (text class_name : List Char) : List (List Char) :=
  match searchClass class_name text with
  | none => []
  | some block => (splitNl block).filterMap methodNameOfLine

/-- `sections.setdefault(k, [])` on the ordered mapping: create an empty
entry at the end when the key is absent, otherwise leave everything as is. -/
def odSetdefault (acc : List (List Char × List (List Char))) (k : List Char) :
    List (List Char × List (List Char)) :=
  if acc.any (fun p => decide (p.1 = k)) then acc else acc ++ [(k, [])]

/-- `sections.setdefault(k, []).append(n)`: append `n` to the entry for `k`,
creating the entry at the end when absent. -/
def odAdd (acc : List (List Char × List (List Char))) (k n : List Char) :
    List (List Char × List (List Char)) :=
  if acc.any (fun p => decide (p.1 = k)) then
    acc.map (fun p => if p.1 = k then (p.1, p.2 ++ [n]) else p)
  else acc ++ [(k, [n])]

/-- First-match lookup in the ordered mapping (`sections[k]`). -/
def lookupOD : List (List Char × List (List Char)) → List Char → Option (List (List Char))
  | [], _ => none
  | p :: ps, k => if p.1 = k then some p.2 else lookupOD ps k

/-- One iteration of the `sections` loop: state is
(current section title, mapping built so far).  A blank line is skipped; a
`//` line strips the marker (`re.sub(r'^//\s*', '', line)`) and becomes the
current title, registered with `setdefault`; a signature line appends its
name under the current title. -/
def secStep (st : List Char × List (List Char × List (List Char))) (raw : List Char) :
    List Char × List (List Char × List (List Char)) :=
  let line := pyStrip raw
  if line = [] then st
  else if beginsWith (str ("//")) line then
    let t := (line.drop 2).dropWhile isPySpace
    (t, odSetdefault st.2 t)
  else
    match sigName line with
    | some n => (st.1, odAdd st.2 st.1 n)
    | none => st

/-- The `sections` OrderedDict built from the interface body, starting from
the sentinel title `General`. -/
def buildSections (body : List Char) : List (List Char × List (List Char)) :=
  ((splitNl body).foldl secStep (str ("General"), [])).2

/-- Reference attribution of the body lines: every extracted name paired
with the title of the nearest preceding marker line (or the `General`
sentinel when no marker precedes it).  Used to state what `buildSections`
groups. -/
def attrPairs (cur : List Char) : List (List Char) → List (List Char × List Char)
  | [] => []
  | raw :: rest =>
    let line := pyStrip raw
    if line = [] then attrPairs cur rest
    else if beginsWith (str ("//")) line then
      attrPairs ((line.drop 2).dropWhile isPySpace) rest
    else
      match sigName line with
      | some n => (cur, n) :: attrPairs cur rest
      | none => attrPairs cur rest

/-- Nearest-preceding-marker attribution of the whole body. -/
def pairsOf (body : List Char) : List (List Char × List Char) :=
  attrPairs (str ("General")) (splitNl body)

/-- Sequence of titles for which an entry is created or touched, in source
order: each marker line yields its title, each signature line yields the
title current at that point. -/
def titleEvents (cur : List Char) : List (List Char) → List (List Char)
  | [] => []
  | raw :: rest =>
    let line := pyStrip raw
    if line = [] then titleEvents cur rest
    else if beginsWith (str ("//")) line then
      let t := (line.drop 2).dropWhile isPySpace
      t :: titleEvents t rest
    else
      match sigName line with
      | some _ => cur :: titleEvents cur rest
      | none => titleEvents cur rest

/-- Names among the attribution pairs carrying a given title, in order. -/
def projT (t : List Char) (ps : List (List Char × List Char)) : List (List Char) :=
  (ps.filter (fun p => decide (p.1 = t))).map Prod.snd

/-- Keep the first occurrence of each element not already seen. -/
def fde (seen : List (List Char)) : List (List Char) → List (List Char)
  | [] => []
  | t :: ts => if elemL t seen then fde seen ts else t :: fde (seen ++ [t]) ts

/-- The summary lines of one section in `REPORT_LINES`: the count line, then
the `missing_mem_list` and `missing_db_list` lines when nonempty. -/
def summaryBlock (mem db : List (List Char)) (p : List Char × List (List Char)) :
    List (List Char) :=
  let filtered := p.2.filter (fun n => !(decide (n = str ("constructor"))))
  let mm := filtered.filter (fun n => !(elemL n mem))
  let md := filtered.filter (fun n => !(elemL n db))
  [str ("[") ++ p.1 ++ str ("] total=") ++ natToChars filtered.length ++
     str (" missing_mem=") ++ natToChars mm.length ++
     str (" missing_db=") ++ natToChars md.length] ++
  (if mm = [] then [] else [str ("  missing_mem_list=") ++ joinSep (str (", ")) mm]) ++
  (if md = [] then [] else [str ("  missing_db_list=") ++ joinSep (str (", ")) md])

/-- The detailed lines of one section in `REPORT_LINES`: skipped entirely
when the constructor-filtered list is empty. -/
def detailBlock (mem db : List (List Char)) (p : List Char × List (List Char)) :
    List (List Char) :=
  let filtered := p.2.filter (fun n => !(decide (n = str ("constructor"))))
  if filtered = [] then []
  else
    (str ("## ") ++ p.1) ::
      filtered.map (fun n =>
        str ("- ") ++ n ++ str (": inMem=") ++
          (if elemL n mem then str ("Y") else str ("N")) ++
          str (", inDb=") ++
          (if elemL n db then str ("Y") else str ("N")))

/-- `REPORT_LINES`: header, per-section summaries, the `\nDETAILED_METHODS`
element, then per-section details. -/
def reportOf (secs : List (List Char × List (List Char))) (mem db : List (List Char)) :
    List (List Char) :=
  str ("SECTION_SUMMARY") :: (secs.flatMap (summaryBlock mem db)) ++
    [str ("\nDETAILED_METHODS")] ++ secs.flatMap (detailBlock mem db)

/-- `SECTION_CONFIG`: the static, ordered domain configuration
`(section title, type name, property name)`. -/
def SECTION_CONFIG : List (List Char × List Char × List Char) :=
  [ (str ("User management (IMPORTANT: Required methods for Replit Auth)"),
       str ("UserRepository"), str ("users")),
    (str ("Member profiles"), str ("MemberProfileRepository"), str ("members")),
    (str ("Sanitized public access methods (PII-safe)"),
       str ("PublicDirectoryRepository"), str ("publicDirectory")),
    (str ("Contractor profiles"), str ("ContractorRepository"), str ("contractors")),
    (str ("Merchant profiles"), str ("MerchantRepository"), str ("merchants")),
    (str ("Home details"), str ("HomeDetailsRepository"), str ("homes")),
    (str ("Service requests"), str ("ServiceRequestRepository"), str ("serviceRequests")),
    (str ("Work orders"), str ("WorkOrderRepository"), str ("workOrders")),
    (str ("Estimates"), str ("EstimateRepository"), str ("estimates")),
    (str ("Invoices"), str ("InvoiceRepository"), str ("invoices")),
    (str ("Loyalty points"), str ("LoyaltyRepository"), str ("loyalty")),
    (str ("Deals"), str ("DealRepository"), str ("deals")),
    (str ("Messages"), str ("MessageRepository"), str ("messages")),
    (str ("Notifications"), str ("NotificationRepository"), str ("notifications")),
    (str ("Notification Settings"), str ("NotificationSettingsRepository"),
       str ("notificationSettings")),
    (str ("Calendar events"), str ("CalendarRepository"), str ("calendar")),
    (str ("Community"), str ("CommunityRepository"), str ("community")),
    (str ("Forums"), str ("ForumRepository"), str ("forums")),
    (str ("Forum Topics"), str ("ForumTopicRepository"), str ("forumTopics")),
    (str ("Forum Posts"), str ("ForumPostRepository"), str ("forumPosts")),
    (str ("Forum Post Voting"), str ("ForumVoteRepository"), str ("forumVotes")),
    (str ("Forum Statistics and Analytics"), str ("ForumAnalyticsRepository"),
       str ("forumAnalytics")),
    (str ("Forum Moderation"), str ("ForumModerationRepository"), str ("forumModeration")),
    (str ("Gamification - Badges"), str ("BadgeRepository"), str ("badges")),
    (str ("Gamification - Ranks"), str ("RankRepository"), str ("ranks")),
    (str ("Gamification - Achievements"), str ("AchievementRepository"), str ("achievements")),
    (str ("Maintenance Items"), str ("MaintenanceRepository"), str ("maintenance")),
    (str ("Time slot management"), str ("SchedulingSlotRepository"), str ("schedulingSlots")),
    (str ("Work order scheduling queries"), str ("SchedulingWorkOrderRepository"),
       str ("schedulingWorkOrders")),
    (str ("Schedule conflict management"), str ("SchedulingConflictRepository"),
       str ("schedulingConflicts")),
    (str ("Schedule audit logging"), str ("SchedulingAuditRepository"), str ("schedulingAudit")),
    (str ("Data seeding and initialization"), str ("SeedRepository"), str ("seed")) ]

/-- `[n for n in sections.get(sec, []) if n != 'constructor']`. -/
def filteredMethods (secs : List (List Char × List (List Char))) (sec : List Char) :
    List (List Char) :=
  ((lookupOD secs sec).getD []).filter (fun n => !(decide (n = str ("constructor"))))

/-- The emitted narrowed-type element for one domain:
`export type TN = Pick<IStorage,\n  KEYS\n>;\n` with the method names
single-quoted and joined by ` |\n  `. -/
def typeBlock (tn : List Char) (ms : List (List Char)) : List Char :=
  str ("export type ") ++ tn ++ str (" = Pick<IStorage,\n  ") ++
    joinSep (str (" |\n  ")) (ms.map (fun n => ['\x27'] ++ n ++ ['\x27'])) ++
    str ("\n>;\n")

/-- One iteration of the generation loop over `SECTION_CONFIG`: a domain
whose constructor-filtered section methods are empty is skipped; otherwise
its type block and its `(property name, type name)` entry are appended. -/
def cgStep (secs : List (List Char × List (List Char)))
    (st : List (List Char) × List (List Char × List Char))
    (e : List Char × List Char × List Char) :
    List (List Char) × List (List Char × List Char) :=
  let ms := filteredMethods secs e.1
  if ms = [] then st
  else (st.1 ++ [typeBlock e.2.1 ms], st.2 ++ [(e.2.2, e.2.1)])

/-- The import header of `contracts_lines` (`from '../storage'` written with
explicit quote characters). -/
def importLine : List Char :=
  str ("import type \x7b IStorage \x7d from ") ++ ['\x27'] ++ str ("../storage") ++
    ['\x27', ';']

/-- State of `contracts_lines` and `repository_entries` after the
generation loop. -/
def contractsAndEntries (cfg : List (List Char × List Char × List Char))
    (secs : List (List Char × List (List Char))) :
    List (List Char) × List (List Char × List Char) :=
  cfg.foldl (cgStep secs) ([importLine, []], [])

/-- `repository_entries` after the loop. -/
def repository_entries (cfg : List (List Char × List Char × List Char))
    (secs : List (List Char × List (List Char))) : List (List Char × List Char) :=
  (contractsAndEntries cfg secs).2

/-- `f'  \x7bprop_name\x7d: \x7btype_name\x7d;'` — one property of the
aggregate `StorageRepositories` interface. -/
def aggLine (pt : List Char × List Char) : List Char :=
  str ("  ") ++ pt.1 ++ str (": ") ++ pt.2 ++ str (";")

/-- `f'  \x7bprop_name\x7d: storage as \x7btype_name\x7d,'` — one property of
the record built by the factory. -/
def facLine (pt : List Char × List Char) : List Char :=
  str ("  ") ++ pt.1 ++ str (": storage as ") ++ pt.2 ++ str (",")

/-- Full `contracts_lines`: the loop output, then the aggregate
`StorageRepositories` interface over the collected entries, then the
`createStorageRepositories` factory over the same entries. -/
def contractsOf (cfg : List (List Char × List Char × List Char))
    (secs : List (List Char × List (List Char))) : List (List Char) :=
  (contractsAndEntries cfg secs).1 ++
    [str ("export interface StorageRepositories \x7b")] ++
    (repository_entries cfg secs).map aggLine ++
    [str ("\x7d\n"),
     str ("export const createStorageRepositories = (storage: IStorage): StorageRepositories => (\x7b")] ++
    (repository_entries cfg secs).map facLine ++
    [str ("\x7d);\n")]

/-- Configuration entries that pass the generation guard: their section has
at least one non-constructor method.  This names the claim-side condition
that the generation loop is shown to implement. -/
def emittedDomains (cfg : List (List Char × List Char × List Char))
    (secs : List (List Char × List (List Char))) :
    List (List Char × List Char × List Char) :=
  cfg.filter (fun e => decide (filteredMethods secs e.1 ≠ []))

/-- `'\n'.join`. -/
def joinNl (xs : List (List Char)) : List Char := joinSep [('\n')] xs

/-- The whole run: locate the interface body (aborting with the script's
`SystemExit` message when absent), build the sections, extract the two
vocabularies, and render the two output artifacts as text. -/
def runPipeline (interface_text db_text : List Char) :
    Except (List Char) (List Char × List Char) :=
  match searchInterfaceBody interface_text with
  | none => Except.error (str ("IStorage interface not found"))
  | some body =>
    let secs := buildSections body
    let mem := extract_methods interface_text (str ("MemStorage"))
    let db := extract_methods db_text (str ("DbStorage"))
    Except.ok (joinNl (reportOf secs mem db), joinNl (contractsOf SECTION_CONFIG secs))

example :
    buildSections (str ("\n  // A\n  a(x): X;\n  b(y): Y;\n  // B\n  c(z): Z;"))
      = [(str ("A"), [str ("a"), str ("b")]), (str ("B"), [str ("c")])] := by decide

example :
    buildSections (str ("  a(x): X;\n  // B\n  c(z): Z;"))
      = [(str ("General"), [str ("a")]), (str ("B"), [str ("c")])] := by decide

example : extract_methods (str ("class A \x7b\n  f(x) \x7b\n  \x7d\n\x7d")) (str ("A"))
    = [str ("f")] := by decide

example : extract_methods (str ("class A \x7b\n  async g(x) \x7b\n  \x7d\n\x7d")) (str ("A"))
    = [str ("g")] := by decide

example :
    buildSections (str ("\n  // A\n  a(x): X;\n  b(y): Y;\n  // B\n  c(z): Z;"))
      = [(str ("A"), [str ("a"), str ("b")]), (str ("B"), [str ("c")])] := by decide

example :
    buildSections (str ("  a(x): X;\n  // B\n  c(z): Z;"))
      = [(str ("General"), [str ("a")]), (str ("B"), [str ("c")])] := by decide

lemma elemL_iff (n : List Char) (v : List (List Char)) : elemL n v = true ↔ n ∈ v := by
  simp [elemL, List.any_eq_true]

lemma elemL_eq_false (n : List Char) (v : List (List Char)) :
    elemL n v = false ↔ ¬ n ∈ v := by
  rw [Bool.eq_false_iff, Ne, elemL_iff]

lemma odGuard (acc : List (List Char × List (List Char))) (k : List Char) :
    acc.any (fun p => decide (p.1 = k)) = elemL k (acc.map Prod.fst) := by
  induction acc with
  | nil => rfl
  | cons p ps ih => simp [elemL, List.any_cons] at ih ⊢; rw [ih]

lemma lookupOD_eq_none (acc : List (List Char × List (List Char))) (t : List Char) :
    lookupOD acc t = none ↔ ¬ t ∈ acc.map Prod.fst := by
  induction acc with
  | nil => simp [lookupOD]
  | cons p ps ih =>
    by_cases h : p.1 = t
    · simp [lookupOD, h]
    · simp [lookupOD, h, ih, Ne.symm h]

lemma lookupOD_append_some (acc l : List (List Char × List (List Char)))
    (t : List Char) (ms : List (List Char)) (h : lookupOD acc t = some ms) :
    lookupOD (acc ++ l) t = some ms := by
  induction acc with
  | nil => exact absurd h (by simp [lookupOD])
  | cons p ps ih =>
    by_cases hp : p.1 = t
    · simpa [lookupOD, hp] using h
    · rw [lookupOD, if_neg hp] at h
      simpa [lookupOD, hp] using ih h

lemma lookupOD_append_none (acc l : List (List Char × List (List Char)))
    (t : List Char) (h : lookupOD acc t = none) :
    lookupOD (acc ++ l) t = lookupOD l t := by
  induction acc with
  | nil => simp [lookupOD]
  | cons p ps ih =>
    by_cases hp : p.1 = t
    · rw [lookupOD, if_pos hp] at h; exact Option.noConfusion h
    · rw [lookupOD, if_neg hp] at h
      simpa [lookupOD, hp] using ih h

lemma odSetdefault_of_mem (acc : List (List Char × List (List Char))) (k : List Char)
    (h : k ∈ acc.map Prod.fst) : odSetdefault acc k = acc := by
  rw [odSetdefault, odGuard, if_pos ((elemL_iff k _).mpr h)]

lemma odSetdefault_of_not_mem (acc : List (List Char × List (List Char))) (k : List Char)
    (h : ¬ k ∈ acc.map Prod.fst) : odSetdefault acc k = acc ++ [(k, [])] := by
  rw [odSetdefault, odGuard, if_neg]
  rw [Bool.not_eq_true, elemL_eq_false]
  exact h

lemma odAdd_of_not_mem (acc : List (List Char × List (List Char))) (k n : List Char)
    (h : ¬ k ∈ acc.map Prod.fst) : odAdd acc k n = acc ++ [(k, [n])] := by
  rw [odAdd, odGuard, if_neg]
  rw [Bool.not_eq_true, elemL_eq_false]
  exact h

lemma odAdd_of_mem (acc : List (List Char × List (List Char))) (k n : List Char)
    (h : k ∈ acc.map Prod.fst) :
    odAdd acc k n = acc.map (fun p => if p.1 = k then (p.1, p.2 ++ [n]) else p) := by
  rw [odAdd, odGuard, if_pos ((elemL_iff k _).mpr h)]

lemma keys_odAdd_of_mem (acc : List (List Char × List (List Char))) (k n : List Char)
    (h : k ∈ acc.map Prod.fst) :
    (odAdd acc k n).map Prod.fst = acc.map Prod.fst := by
  rw [odAdd_of_mem acc k n h, List.map_map]
  apply List.map_congr_left
  intro p _
  by_cases hp : p.1 = k <;> simp [hp]

lemma lookupOD_odAdd_self_some (acc : List (List Char × List (List Char)))
    (k n : List Char) (ms : List (List Char)) (h : lookupOD acc k = some ms) :
    lookupOD (odAdd acc k n) k = some (ms ++ [n]) := by
  have hk : k ∈ acc.map Prod.fst := by
    by_contra hc
    rw [(lookupOD_eq_none acc k).mpr hc] at h
    exact Option.noConfusion h
  rw [odAdd_of_mem acc k n hk]
  clear hk
  induction acc with
  | nil => exact absurd h (by simp [lookupOD])
  | cons p ps ih =>
    by_cases hp : p.1 = k
    · rw [lookupOD, if_pos hp] at h
      injection h with h
      subst h
      simp [lookupOD, hp]
    · rw [lookupOD, if_neg hp] at h
      simpa [lookupOD, hp] using ih h

lemma lookupOD_odAdd_self_none (acc : List (List Char × List (List Char)))
    (k n : List Char) (h : lookupOD acc k = none) :
    lookupOD (odAdd acc k n) k = some [n] := by
  have hk : ¬ k ∈ acc.map Prod.fst := (lookupOD_eq_none acc k).mp h
  rw [odAdd_of_not_mem acc k n hk, lookupOD_append_none acc _ k h]
  simp [lookupOD]

lemma lookupOD_map_upd (ps : List (List Char × List (List Char)))
    (k n t : List Char) (h : ¬ t = k) :
    lookupOD (ps.map (fun p => if p.1 = k then (p.1, p.2 ++ [n]) else p)) t
      = lookupOD ps t := by
  induction ps with
  | nil => simp [lookupOD]
  | cons p ps ih =>
    by_cases hpk : p.1 = k
    · have hpt : ¬ p.1 = t := by
        rw [hpk]; intro hc; exact h hc.symm
      simp only [List.map_cons, if_pos hpk, lookupOD, if_neg hpt, ih]
    · by_cases hpt : p.1 = t
      · simp only [List.map_cons, if_neg hpk, lookupOD, if_pos hpt]
      · simp only [List.map_cons, if_neg hpk, lookupOD, if_neg hpt, ih]

lemma lookupOD_odAdd_other (acc : List (List Char × List (List Char)))
    (k n t : List Char) (h : ¬ t = k) :
    lookupOD (odAdd acc k n) t = lookupOD acc t := by
  by_cases hk : k ∈ acc.map Prod.fst
  · rw [odAdd_of_mem acc k n hk]
    exact lookupOD_map_upd acc k n t h
  · rw [odAdd_of_not_mem acc k n hk]
    cases hl : lookupOD acc t with
    | some ms => exact lookupOD_append_some acc _ t ms hl
    | none =>
      rw [lookupOD_append_none acc _ t hl, lookupOD,
        if_neg (fun hc : k = t => h hc.symm)]
      rfl

lemma lookupOD_odSetdefault_self_none (acc : List (List Char × List (List Char)))
    (k : List Char) (h : lookupOD acc k = none) :
    lookupOD (odSetdefault acc k) k = some [] := by
  have hk : ¬ k ∈ acc.map Prod.fst := (lookupOD_eq_none acc k).mp h
  rw [odSetdefault_of_not_mem acc k hk, lookupOD_append_none acc _ k h]
  simp [lookupOD]

lemma lookupOD_odSetdefault_self_some (acc : List (List Char × List (List Char)))
    (k : List Char) (ms : List (List Char)) (h : lookupOD acc k = some ms) :
    odSetdefault acc k = acc := by
  apply odSetdefault_of_mem
  by_contra hc
  rw [(lookupOD_eq_none acc k).mpr hc] at h
  exact Option.noConfusion h

lemma lookupOD_odSetdefault_other (acc : List (List Char × List (List Char)))
    (k t : List Char) (h : ¬ t = k) :
    lookupOD (odSetdefault acc k) t = lookupOD acc t := by
  by_cases hk : k ∈ acc.map Prod.fst
  · rw [odSetdefault_of_mem acc k hk]
  · rw [odSetdefault_of_not_mem acc k hk]
    cases hl : lookupOD acc t with
    | some ms => exact lookupOD_append_some acc _ t ms hl
    | none =>
      rw [lookupOD_append_none acc _ t hl, lookupOD,
        if_neg (fun hc : k = t => h hc.symm)]
      rfl

lemma elemL_cons (x y : List Char) (l : List (List Char)) :
    elemL x (y :: l) = (decide (y = x) || elemL x l) := by
  simp [elemL, List.any_cons]

lemma secStep_blank (st : List Char × List (List Char × List (List Char)))
    (raw : List Char) (h : pyStrip raw = []) : secStep st raw = st := by
  simp [secStep, h]

lemma secStep_marker (st : List Char × List (List Char × List (List Char)))
    (raw : List Char) (h1 : ¬ pyStrip raw = [])
    (h2 : beginsWith (str ("//")) (pyStrip raw) = true) :
    secStep st raw =
      (((pyStrip raw).drop 2).dropWhile isPySpace,
        odSetdefault st.2 (((pyStrip raw).drop 2).dropWhile isPySpace)) := by
  simp [secStep, h1, h2]

lemma secStep_sig (st : List Char × List (List Char × List (List Char)))
    (raw n : List Char) (h1 : ¬ pyStrip raw = [])
    (h2 : beginsWith (str ("//")) (pyStrip raw) = false)
    (h3 : sigName (pyStrip raw) = some n) :
    secStep st raw = (st.1, odAdd st.2 st.1 n) := by
  simp [secStep, h1, h2, h3]

lemma secStep_other (st : List Char × List (List Char × List (List Char)))
    (raw : List Char) (h1 : ¬ pyStrip raw = [])
    (h2 : beginsWith (str ("//")) (pyStrip raw) = false)
    (h3 : sigName (pyStrip raw) = none) : secStep st raw = st := by
  simp [secStep, h1, h2, h3]

lemma attrPairs_blank (cur raw : List Char) (rest : List (List Char))
    (h : pyStrip raw = []) : attrPairs cur (raw :: rest) = attrPairs cur rest := by
  simp [attrPairs, h]

lemma attrPairs_marker (cur raw : List Char) (rest : List (List Char))
    (h1 : ¬ pyStrip raw = []) (h2 : beginsWith (str ("//")) (pyStrip raw) = true) :
    attrPairs cur (raw :: rest)
      = attrPairs (((pyStrip raw).drop 2).dropWhile isPySpace) rest := by
  simp [attrPairs, h1, h2]

lemma attrPairs_sig (cur raw n : List Char) (rest : List (List Char))
    (h1 : ¬ pyStrip raw = []) (h2 : beginsWith (str ("//")) (pyStrip raw) = false)
    (h3 : sigName (pyStrip raw) = some n) :
    attrPairs cur (raw :: rest) = (cur, n) :: attrPairs cur rest := by
  simp [attrPairs, h1, h2, h3]

lemma attrPairs_other (cur raw : List Char) (rest : List (List Char))
    (h1 : ¬ pyStrip raw = []) (h2 : beginsWith (str ("//")) (pyStrip raw) = false)
    (h3 : sigName (pyStrip raw) = none) :
    attrPairs cur (raw :: rest) = attrPairs cur rest := by
  simp [attrPairs, h1, h2, h3]

lemma titleEvents_blank (cur raw : List Char) (rest : List (List Char))
    (h : pyStrip raw = []) : titleEvents cur (raw :: rest) = titleEvents cur rest := by
  simp [titleEvents, h]

lemma titleEvents_marker (cur raw : List Char) (rest : List (List Char))
    (h1 : ¬ pyStrip raw = []) (h2 : beginsWith (str ("//")) (pyStrip raw) = true) :
    titleEvents cur (raw :: rest)
      = ((pyStrip raw).drop 2).dropWhile isPySpace
          :: titleEvents (((pyStrip raw).drop 2).dropWhile isPySpace) rest := by
  simp [titleEvents, h1, h2]

lemma titleEvents_sig (cur raw n : List Char) (rest : List (List Char))
    (h1 : ¬ pyStrip raw = []) (h2 : beginsWith (str ("//")) (pyStrip raw) = false)
    (h3 : sigName (pyStrip raw) = some n) :
    titleEvents cur (raw :: rest) = cur :: titleEvents cur rest := by
  simp [titleEvents, h1, h2, h3]

lemma titleEvents_other (cur raw : List Char) (rest : List (List Char))
    (h1 : ¬ pyStrip raw = []) (h2 : beginsWith (str ("//")) (pyStrip raw) = false)
    (h3 : sigName (pyStrip raw) = none) :
    titleEvents cur (raw :: rest) = titleEvents cur rest := by
  simp [titleEvents, h1, h2, h3]

lemma projT_nil (t : List Char) : projT t [] = [] := rfl

lemma projT_cons (t c n : List Char) (ps : List (List Char × List Char)) :
    projT t ((c, n) :: ps) = if c = t then n :: projT t ps else projT t ps := by
  by_cases h : c = t <;> simp [projT, List.filter, h]

lemma fde_not_mem_seen (ts : List (List Char)) :
    ∀ seen x, x ∈ fde seen ts → ¬ x ∈ seen := by
  induction ts with
  | nil => intro seen x hx; exact absurd hx (by simp [fde])
  | cons t ts ih =>
    intro seen x hx
    rw [fde] at hx
    by_cases he : elemL t seen = true
    · rw [if_pos he] at hx; exact ih seen x hx
    · rw [if_neg he] at hx
      rcases List.mem_cons.mp hx with hx | hx
      · subst hx
        intro hc
        exact he ((elemL_iff x seen).mpr hc)
      · intro hc
        exact ih (seen ++ [t]) x hx (List.mem_append_left _ hc)

lemma fde_nodup (ts : List (List Char)) : ∀ seen, (fde seen ts).Nodup := by
  induction ts with
  | nil => intro seen; simp [fde]
  | cons t ts ih =>
    intro seen
    rw [fde]
    by_cases he : elemL t seen = true
    · rw [if_pos he]; exact ih seen
    · rw [if_neg he]
      refine List.nodup_cons.mpr ⟨?_, ih (seen ++ [t])⟩
      intro hc
      exact fde_not_mem_seen ts (seen ++ [t]) t hc (by simp)

lemma map_upd_id (ps : List (List Char × List (List Char))) (k n : List Char)
    (h : ¬ k ∈ ps.map Prod.fst) :
    ps.map (fun p => if p.1 = k then (p.1, p.2 ++ [n]) else p) = ps := by
  induction ps with
  | nil => rfl
  | cons p ps ih =>
    have hp : ¬ p.1 = k := fun hc => h (by simp [hc])
    have hps : ¬ k ∈ ps.map Prod.fst := fun hc => h (by simp [hc])
    simp [if_neg hp, ih hps]

lemma fold_lookup (lines : List (List Char)) :
    ∀ (cur : List Char) (acc : List (List Char × List (List Char))) (t : List Char),
    lookupOD ((lines.foldl secStep (cur, acc)).2) t =
      (match lookupOD acc t with
       | some ms => some (ms ++ projT t (attrPairs cur lines))
       | none =>
         if elemL t (titleEvents cur lines) = true then
           some (projT t (attrPairs cur lines))
         else none) := by
  induction lines with
  | nil =>
    intro cur acc t
    cases h : lookupOD acc t <;> simp [attrPairs, titleEvents, projT, elemL, h]
  | cons raw rest ih =>
    intro cur acc t
    rw [List.foldl_cons]
    by_cases h0 : pyStrip raw = []
    · rw [secStep_blank _ _ h0, attrPairs_blank _ _ _ h0, titleEvents_blank _ _ _ h0]
      exact ih cur acc t
    by_cases h1 : beginsWith (str ("//")) (pyStrip raw) = true
    · rw [secStep_marker _ _ h0 h1, attrPairs_marker _ _ _ h0 h1,
        titleEvents_marker _ _ _ h0 h1]
      rw [ih (((pyStrip raw).drop 2).dropWhile isPySpace) _ t]
      by_cases htu : t = ((pyStrip raw).drop 2).dropWhile isPySpace
      · rw [← htu]
        cases h2 : lookupOD acc t with
        | some ms => rw [lookupOD_odSetdefault_self_some acc t ms h2, h2]
        | none =>
          rw [lookupOD_odSetdefault_self_none acc t h2]
          simp [elemL_cons]
      · rw [lookupOD_odSetdefault_other acc _ t htu]
        cases h2 : lookupOD acc t with
        | some ms => simp
        | none =>
          rw [elemL_cons, decide_eq_false (fun hc => htu hc.symm)]
          simp
    · rw [Bool.not_eq_true] at h1
      cases h3 : sigName (pyStrip raw) with
      | none =>
        rw [secStep_other _ _ h0 h1 h3, attrPairs_other _ _ _ h0 h1 h3,
          titleEvents_other _ _ _ h0 h1 h3]
        exact ih cur acc t
      | some n =>
        rw [secStep_sig _ _ _ h0 h1 h3, attrPairs_sig _ _ _ _ h0 h1 h3,
          titleEvents_sig _ _ _ _ h0 h1 h3]
        rw [ih cur _ t, projT_cons]
        by_cases htc : t = cur
        · rw [← htc, if_pos rfl]
          cases h2 : lookupOD acc t with
          | some ms =>
            rw [lookupOD_odAdd_self_some acc t n ms h2]
            simp
          | none =>
            rw [lookupOD_odAdd_self_none acc t n h2]
            simp [elemL_cons]
        · rw [if_neg (fun hc : cur = t => htc hc.symm),
            lookupOD_odAdd_other acc cur n t htc]
          cases h2 : lookupOD acc t with
          | some ms => simp
          | none =>
            rw [elemL_cons, decide_eq_false (fun hc : cur = t => htc hc.symm)]
            simp

lemma fold_keys (lines : List (List Char)) :
    ∀ (cur : List Char) (acc : List (List Char × List (List Char))),
    ((lines.foldl secStep (cur, acc)).2).map Prod.fst
      = acc.map Prod.fst ++ fde (acc.map Prod.fst) (titleEvents cur lines) := by
  induction lines with
  | nil => intro cur acc; simp [titleEvents, fde]
  | cons raw rest ih =>
    intro cur acc
    rw [List.foldl_cons]
    by_cases h0 : pyStrip raw = []
    · rw [secStep_blank _ _ h0, titleEvents_blank _ _ _ h0]
      exact ih cur acc
    by_cases h1 : beginsWith (str ("//")) (pyStrip raw) = true
    · rw [secStep_marker _ _ h0 h1, titleEvents_marker _ _ _ h0 h1]
      by_cases hm : ((pyStrip raw).drop 2).dropWhile isPySpace ∈ acc.map Prod.fst
      · rw [odSetdefault_of_mem _ _ hm, fde, if_pos ((elemL_iff _ _).mpr hm)]
        exact ih _ acc
      · rw [odSetdefault_of_not_mem _ _ hm, fde,
          if_neg (fun hc => hm ((elemL_iff _ _).mp hc)), ih _ _]
        simp [List.map_append]
    · rw [Bool.not_eq_true] at h1
      cases h3 : sigName (pyStrip raw) with
      | none =>
        rw [secStep_other _ _ h0 h1 h3, titleEvents_other _ _ _ h0 h1 h3]
        exact ih cur acc
      | some n =>
        rw [secStep_sig _ _ _ h0 h1 h3, titleEvents_sig _ _ _ _ h0 h1 h3]
        by_cases hm : cur ∈ acc.map Prod.fst
        · rw [fde, if_pos ((elemL_iff _ _).mpr hm), ih cur _, keys_odAdd_of_mem _ _ _ hm]
        · rw [odAdd_of_not_mem _ _ _ hm, fde,
            if_neg (fun hc => hm ((elemL_iff _ _).mp hc)), ih _ _]
          simp [List.map_append]

lemma flatten_map_upd (k n : List Char) :
    ∀ ps : List (List Char × List (List Char)), (ps.map Prod.fst).Nodup →
    k ∈ ps.map Prod.fst →
    List.Perm
      ((ps.map (fun p => if p.1 = k then (p.1, p.2 ++ [n]) else p)).map Prod.snd).flatten
      ((ps.map Prod.snd).flatten ++ [n]) := by
  intro ps
  induction ps with
  | nil => intro _ hm; exact absurd hm (by simp)
  | cons p ps ih =>
    intro hnd hm
    rw [List.map_cons, List.nodup_cons] at hnd
    by_cases hp : p.1 = k
    · have hknot : ¬ k ∈ ps.map Prod.fst := by
        rw [← hp]; exact hnd.1
      rw [List.map_cons, if_pos hp, map_upd_id ps k n hknot]
      simp only [List.map_cons, List.flatten_cons]
      rw [List.append_assoc, List.append_assoc]
      exact List.perm_append_comm.append_left p.2
    · have hmk : k ∈ ps.map Prod.fst := by
        rw [List.map_cons] at hm
        rcases List.mem_cons.mp hm with hc | hc
        · exact absurd hc.symm hp
        · exact hc
      rw [List.map_cons, if_neg hp]
      simp only [List.map_cons, List.flatten_cons]
      rw [List.append_assoc]
      exact (ih hnd.2 hmk).append_left p.2

lemma fold_perm (lines : List (List Char)) :
    ∀ (cur : List Char) (acc : List (List Char × List (List Char))),
    (acc.map Prod.fst).Nodup →
    List.Perm (((lines.foldl secStep (cur, acc)).2).map Prod.snd).flatten
      ((acc.map Prod.snd).flatten ++ (attrPairs cur lines).map Prod.snd) := by
  induction lines with
  | nil =>
    intro cur acc _
    simp [attrPairs]
  | cons raw rest ih =>
    intro cur acc hnd
    rw [List.foldl_cons]
    by_cases h0 : pyStrip raw = []
    · rw [secStep_blank _ _ h0, attrPairs_blank _ _ _ h0]
      exact ih cur acc hnd
    by_cases h1 : beginsWith (str ("//")) (pyStrip raw) = true
    · rw [secStep_marker _ _ h0 h1, attrPairs_marker _ _ _ h0 h1]
      by_cases hm : ((pyStrip raw).drop 2).dropWhile isPySpace ∈ acc.map Prod.fst
      · rw [odSetdefault_of_mem _ _ hm]
        exact ih _ acc hnd
      · rw [odSetdefault_of_not_mem _ _ hm]
        have hnd' : ((acc ++ [(((pyStrip raw).drop 2).dropWhile isPySpace, [])]).map
            Prod.fst).Nodup := by
          rw [List.map_append, List.nodup_append]
          refine ⟨hnd, by simp, ?_⟩
          intro a ha hb
          simp at hb
          rw [hb] at ha
          exact hm ha
        have h1 := ih (((pyStrip raw).drop 2).dropWhile isPySpace)
          (acc ++ [(((pyStrip raw).drop 2).dropWhile isPySpace, [])]) hnd'
        have hflat : ((acc ++ [(((pyStrip raw).drop 2).dropWhile isPySpace, [])]).map
            Prod.snd).flatten = (acc.map Prod.snd).flatten := by simp
        rw [hflat] at h1
        exact h1
    · rw [Bool.not_eq_true] at h1
      cases h3 : sigName (pyStrip raw) with
      | none =>
        rw [secStep_other _ _ h0 h1 h3, attrPairs_other _ _ _ h0 h1 h3]
        exact ih cur acc hnd
      | some n =>
        rw [secStep_sig _ _ _ h0 h1 h3, attrPairs_sig _ _ _ _ h0 h1 h3, List.map_cons]
        have he : ((acc.map Prod.snd).flatten ++ [n]) ++ (attrPairs cur rest).map Prod.snd
            = (acc.map Prod.snd).flatten ++ n :: (attrPairs cur rest).map Prod.snd := by
          simp
        rw [← he]
        by_cases hm : cur ∈ acc.map Prod.fst
        · have h1 := ih cur (odAdd acc cur n)
            (by rw [keys_odAdd_of_mem _ _ _ hm]; exact hnd)
          have h2 : List.Perm ((odAdd acc cur n).map Prod.snd).flatten
              ((acc.map Prod.snd).flatten ++ [n]) := by
            rw [odAdd_of_mem _ _ _ hm]
            exact flatten_map_upd cur n acc hnd hm
          exact h1.trans (h2.append_right _)
        · rw [odAdd_of_not_mem _ _ _ hm]
          have hnd' : ((acc ++ [(cur, [n])]).map Prod.fst).Nodup := by
            rw [List.map_append, List.nodup_append]
            refine ⟨hnd, by simp, ?_⟩
            intro a ha hb
            simp at hb
            rw [hb] at ha
            exact hm ha
          have h1 := ih cur _ hnd'
          have hflat : ((acc ++ [(cur, [n])]).map Prod.snd).flatten
              = (acc.map Prod.snd).flatten ++ [n] := by simp
          rw [hflat] at h1
          exact h1

lemma buildSections_keys (body : List Char) :
    (buildSections body).map Prod.fst
      = fde [] (titleEvents (str ("General")) (splitNl body)) := by
  have h := fold_keys (splitNl body) (str ("General")) []
  simpa [buildSections] using h

lemma buildSections_nodup (body : List Char) :
    ((buildSections body).map Prod.fst).Nodup := by
  rw [buildSections_keys]
  exact fde_nodup _ []

lemma buildSections_lookup (body t : List Char) (ms : List (List Char))
    (h : lookupOD (buildSections body) t = some ms) :
    ms = projT t (pairsOf body) := by
  have hf := fold_lookup (splitNl body) (str ("General")) [] t
  rw [buildSections] at h
  rw [hf] at h
  simp only [lookupOD] at h
  by_cases he : elemL t (titleEvents (str ("General")) (splitNl body)) = true
  · rw [if_pos he] at h
    injection h with h
    exact h.symm
  · rw [if_neg he] at h
    exact Option.noConfusion h

lemma buildSections_perm (body : List Char) :
    List.Perm ((buildSections body).map Prod.snd).flatten
      ((pairsOf body).map Prod.snd) := by
  have h := fold_perm (splitNl body) (str ("General")) [] (by simp)
  simpa [buildSections, pairsOf] using h

lemma mem_reportOf_summary (secs : List (List Char × List (List Char)))
    (mem db : List (List Char)) (p : List Char × List (List Char)) (hp : p ∈ secs)
    (x : List Char) (hx : x ∈ summaryBlock mem db p) : x ∈ reportOf secs mem db := by
  rw [reportOf]
  apply List.mem_cons_of_mem
  apply List.mem_append_left
  apply List.mem_append_left
  exact List.mem_flatMap.mpr ⟨p, hp, hx⟩

lemma elemL_congr (v w : List (List Char)) (h : ∀ n, n ∈ v ↔ n ∈ w) :
    ∀ n, elemL n v = elemL n w := by
  intro n
  by_cases hn : n ∈ v
  · rw [(elemL_iff n v).mpr hn, ((elemL_iff n w).mpr ((h n).mp hn)).symm]
  · rw [(elemL_eq_false n v).mpr hn,
      ((elemL_eq_false n w).mpr (fun hc => hn ((h n).mpr hc))).symm]

/-- Claim C1, counterexample: for `class A` the capture of `extract_methods`
runs to the last line-initial closing brace of the whole text, so the
method `h` of the nested construct `N` and the method `g` of the later
construct `B` are both attributed to `A`, contradicting the claim that
nested or later constructs never contribute. -/
theorem claim1_counterexample :
    extract_methods
      (str ("class A \x7b\n  f() \x7b\n  class N \x7b\n    h() \x7b\n    \x7d\n  \x7d\n  \x7d\n\x7d\nclass B \x7b\n  g() \x7b\n  \x7d\n\x7d"))
      (str ("A"))
      = [str ("f"), str ("h"), str ("g")] := by decide

/-- Claim C1 (amended): when the class regex matches, `extract_methods`
returns exactly the names scanned from the lines of the captured region —
a region that extends from the first opening brace after the construct
name to the last line-initial closing brace of the text — so every
method-shaped line anywhere in that region, including lines of nested or
later constructs, contributes to the vocabulary. -/
theorem claim1_extract_scans_whole_capture (text name blk : List Char)
    (h : searchClass name text = some blk) (n : List Char) :
    n ∈ extract_methods text name ↔
      ∃ line ∈ splitNl blk, methodNameOfLine line = some n := by
  simp only [extract_methods, h, List.mem_filterMap]

/-- Claim C1, witness: the amended theorem applied at the two-construct
text, showing `g` (declared in the later construct `B`) in the vocabulary
of `A`. -/
theorem claim1_witness :
    (str ("g")) ∈ extract_methods
      (str ("class A \x7b\n  f() \x7b\n  class N \x7b\n    h() \x7b\n    \x7d\n  \x7d\n  \x7d\n\x7d\nclass B \x7b\n  g() \x7b\n  \x7d\n\x7d"))
      (str ("A")) :=
  (claim1_extract_scans_whole_capture
    (str ("class A \x7b\n  f() \x7b\n  class N \x7b\n    h() \x7b\n    \x7d\n  \x7d\n  \x7d\n\x7d\nclass B \x7b\n  g() \x7b\n  \x7d\n\x7d"))
    (str ("A"))
    (str ("\n  f() \x7b\n  class N \x7b\n    h() \x7b\n    \x7d\n  \x7d\n  \x7d\n\x7d\nclass B \x7b\n  g() \x7b\n  \x7d"))
    (by decide) (str ("g"))).mpr
    ⟨str ("  g() \x7b"), by decide, by decide⟩

/-- Claim C3, counterexample: the construct `A` is present in the text
(`class A \x7b` occurs) but no line-initial closing brace follows, and the
run does not abort: `extract_methods` returns the empty vocabulary exactly
as in the not-found case. -/
theorem claim3_counterexample :
    hasSub (str ("class A \x7b")) (str ("class A \x7b\n f() \x7b\n \x7d")) = true
    ∧ extract_methods (str ("class A \x7b\n f() \x7b\n \x7d")) (str ("A")) = [] := by
  decide

/-- Claim C3 (amended): `extract_methods` never aborts; whenever the class
regex fails as a whole — the construct is absent, or it is present but no
line-initial closing brace can be found after its opening brace — the
result is the empty set.  Only the interface-body search aborts the run,
and it is the only abort condition of the pipeline. -/
theorem claim3_no_abort_on_missing_delimiter :
    (∀ text name : List Char, searchClass name text = none →
      extract_methods text name = [])
    ∧ (∀ it dt : List Char,
        (∃ e, runPipeline it dt = Except.error e) ↔ searchInterfaceBody it = none) := by
  constructor
  · intro text name h
    simp [extract_methods, h]
  · intro it dt
    constructor
    · rintro ⟨e, he⟩
      cases hsi : searchInterfaceBody it with
      | none => rfl
      | some b =>
        rw [runPipeline, hsi] at he
        exact Except.noConfusion he
    · intro hsi
      exact ⟨str ("IStorage interface not found"), by rw [runPipeline, hsi]⟩

/-- Claim C3, witness: the amended theorem applied to a text with no class
construct at all, and to an interface text with no interface body. -/
theorem claim3_witness :
    extract_methods (str ("nothing")) (str ("A")) = []
    ∧ ∃ e, runPipeline (str ("nothing")) (str ("")) = Except.error e :=
  ⟨claim3_no_abort_on_missing_delimiter.1 (str ("nothing")) (str ("A")) (by decide),
   (claim3_no_abort_on_missing_delimiter.2 (str ("nothing")) (str (""))).mpr (by decide)⟩

/-- Claim C5, counterexample: a body that declares the same method name
under two different markers puts that name into two different sections'
method lists, contradicting "appears in exactly one Section's method list
… no name duplicated across sections". -/
theorem claim5_counterexample :
    lookupOD (buildSections (str ("// A\na()\n// B\na()"))) (str ("A"))
        = some [str ("a")]
    ∧ lookupOD (buildSections (str ("// A\na()\n// B\na()"))) (str ("B"))
        = some [str ("a")] := by decide

/-- Claim C5 (amended): every extracted occurrence of a method name is
attributed to exactly one section — the one given by the nearest preceding
marker, or the `General` sentinel (`pairsOf` is that attribution) — the
concatenation of all sections' method lists is a permutation of the full
occurrence sequence (no occurrence lost, none duplicated), each section's
list is exactly the occurrences attributed to its title, and section
titles are pairwise distinct; but a single NAME declared under several
markers appears in several sections' lists. -/
theorem claim5_partition_of_occurrences (body : List Char) :
    List.Perm ((buildSections body).map Prod.snd).flatten ((pairsOf body).map Prod.snd)
    ∧ (∀ t ms, lookupOD (buildSections body) t = some ms → ms = projT t (pairsOf body))
    ∧ ((buildSections body).map Prod.fst).Nodup :=
  ⟨buildSections_perm body,
   fun t ms h => buildSections_lookup body t ms h,
   buildSections_nodup body⟩

/-- Claim C5, witness: the amended theorem applied to a small body,
recovering section `S`'s method list as exactly the occurrences attributed
to `S`. -/
theorem claim5_witness :
    [str ("a"), str ("b")] = projT (str ("S")) (pairsOf (str ("// S\na()\nb()"))) :=
  (claim5_partition_of_occurrences (str ("// S\na()\nb()"))).2.1
    (str ("S")) [str ("a"), str ("b")] (by decide)

/-- Claim C9: a repeated marker title does not create a second entry and
does not reset the first one: the output mapping's titles are the
first-occurrence deduplication of the title events (each title at most
once, at its first-appearance position), and the single entry of a title
holds every occurrence attributed to that title anywhere in the body, in
order — nothing previously collected is discarded. -/
theorem claim9_repeated_marker_appends (body : List Char) :
    (buildSections body).map Prod.fst
        = fde [] (titleEvents (str ("General")) (splitNl body))
    ∧ ∀ t ms, lookupOD (buildSections body) t = some ms →
        ms = projT t (pairsOf body) :=
  ⟨buildSections_keys body, fun t ms h => buildSections_lookup body t ms h⟩

/-- Claim C9, witness: with marker `A` occurring twice, the single `A`
entry holds both `a` (from the first occurrence) and `c` (from the
repetition), in order. -/
theorem claim9_witness :
    [str ("a"), str ("c")]
      = projT (str ("A")) (pairsOf (str ("// A\na()\n// B\nb()\n// A\nc()"))) :=
  (claim9_repeated_marker_appends (str ("// A\na()\n// B\nb()\n// A\nc()"))).2
    (str ("A")) [str ("a"), str ("c")] (by decide)

/-- Claim C2, counterexample: an interface section that repeats the method
name `a` is reported with `total=2` although it contains exactly one
distinct method name — the reported total counts occurrences, not
distinct names. -/
theorem claim2_counterexample :
    (str ("[A] total=2 missing_mem=2 missing_db=2")) ∈
      reportOf (buildSections ((searchInterfaceBody
        (str ("export interface IStorage \x7b\n  // A\n  a(x): X;\n  a(y): Y;\n\x7d"))).getD []))
        [] []
    ∧ ((buildSections ((searchInterfaceBody
        (str ("export interface IStorage \x7b\n  // A\n  a(x): X;\n  a(y): Y;\n\x7d"))).getD [])).map
        Prod.snd).flatten.dedup.length = 1 := by decide

/-- Claim C2 (amended): the `total` field of a section's summary line is
the LENGTH of the section's constructor-filtered method list — each
repeated name counted as often as it occurs — not the distinct count; the
line built from that length is the one that appears in the report. -/
theorem claim2_total_counts_occurrences (secs : List (List Char × List (List Char)))
    (mem db : List (List Char)) (sec : List Char) (names : List (List Char))
    (hp : (sec, names) ∈ secs) :
    (str ("[") ++ sec ++ str ("] total=")
        ++ natToChars ((names.filter (fun n => !(decide (n = str ("constructor"))))).length)
        ++ str (" missing_mem=")
        ++ natToChars (((names.filter (fun n => !(decide (n = str ("constructor"))))).filter
              (fun n => !(elemL n mem))).length)
        ++ str (" missing_db=")
        ++ natToChars (((names.filter (fun n => !(decide (n = str ("constructor"))))).filter
              (fun n => !(elemL n db))).length))
      ∈ reportOf secs mem db := by
  apply mem_reportOf_summary secs mem db (sec, names) hp
  rw [summaryBlock]
  apply List.mem_append_left
  apply List.mem_append_left
  exact List.mem_singleton.mpr rfl

/-- Claim C2, witness: the amended theorem applied to a section with the
duplicated name `a` and vocabularies containing `a`; the reported total is
2 while the distinct count is 1. -/
theorem claim2_witness :
    (str ("[A] total=2 missing_mem=0 missing_db=0")) ∈
      reportOf [(str ("A"), [str ("a"), str ("a")])] [str ("a")] [str ("a")] := by
  have h := claim2_total_counts_occurrences [(str ("A"), [str ("a"), str ("a")])]
    [str ("a")] [str ("a")] (str ("A")) [str ("a"), str ("a")] (by decide)
  have he : (str ("[") ++ str ("A") ++ str ("] total=")
        ++ natToChars (([str ("a"), str ("a")].filter
              (fun n => !(decide (n = str ("constructor"))))).length)
        ++ str (" missing_mem=")
        ++ natToChars ((([str ("a"), str ("a")].filter
              (fun n => !(decide (n = str ("constructor"))))).filter
              (fun n => !(elemL n [str ("a")]))).length)
        ++ str (" missing_db=")
        ++ natToChars ((([str ("a"), str ("a")].filter
              (fun n => !(decide (n = str ("constructor"))))).filter
              (fun n => !(elemL n [str ("a")]))).length))
      = str ("[A] total=2 missing_mem=0 missing_db=0") := by decide
  rw [← he]
  exact h

/-- Claim C6: for every section entry of the mapping, the missing list for
an implementation vocabulary is exactly the constructor-filtered section
methods that are not members of that vocabulary, in section order: it is
reported verbatim when nonempty, it is an order-preserving sublist of the
filtered section methods, and a name belongs to it precisely when it is a
filtered section method absent from the vocabulary. -/
theorem claim6_missing_exact (secs : List (List Char × List (List Char)))
    (mem db : List (List Char)) (sec : List Char) (names : List (List Char))
    (hp : (sec, names) ∈ secs) :
    ((names.filter (fun n => !(decide (n = str ("constructor"))))).filter
        (fun n => !(elemL n mem)) ≠ [] →
      (str ("  missing_mem_list=") ++ joinSep (str (", "))
          ((names.filter (fun n => !(decide (n = str ("constructor"))))).filter
            (fun n => !(elemL n mem)))) ∈ reportOf secs mem db)
    ∧ ((names.filter (fun n => !(decide (n = str ("constructor"))))).filter
        (fun n => !(elemL n db)) ≠ [] →
      (str ("  missing_db_list=") ++ joinSep (str (", "))
          ((names.filter (fun n => !(decide (n = str ("constructor"))))).filter
            (fun n => !(elemL n db)))) ∈ reportOf secs mem db)
    ∧ List.Sublist
        ((names.filter (fun n => !(decide (n = str ("constructor"))))).filter
          (fun n => !(elemL n mem)))
        (names.filter (fun n => !(decide (n = str ("constructor")))))
    ∧ (∀ n, n ∈ (names.filter (fun n => !(decide (n = str ("constructor"))))).filter
          (fun n => !(elemL n mem))
        ↔ n ∈ names.filter (fun n => !(decide (n = str ("constructor")))) ∧ ¬ n ∈ mem)
    ∧ (∀ n, n ∈ (names.filter (fun n => !(decide (n = str ("constructor"))))).filter
          (fun n => !(elemL n db))
        ↔ n ∈ names.filter (fun n => !(decide (n = str ("constructor")))) ∧ ¬ n ∈ db) := by
  refine ⟨?_, ?_, List.filter_sublist _, ?_, ?_⟩
  · intro hmm
    apply mem_reportOf_summary secs mem db (sec, names) hp
    rw [summaryBlock]
    apply List.mem_append_left
    apply List.mem_append_right
    rw [if_neg hmm]
    exact List.mem_singleton.mpr rfl
  · intro hmd
    apply mem_reportOf_summary secs mem db (sec, names) hp
    rw [summaryBlock]
    apply List.mem_append_right
    rw [if_neg hmd]
    exact List.mem_singleton.mpr rfl
  · intro n
    rw [List.mem_filter]
    constructor
    · rintro ⟨ha, hb⟩
      exact ⟨ha, (elemL_eq_false n mem).mp (by simpa using hb)⟩
    · rintro ⟨ha, hb⟩
      exact ⟨ha, by simpa using (elemL_eq_false n mem).mpr hb⟩
  · intro n
    rw [List.mem_filter]
    constructor
    · rintro ⟨ha, hb⟩
      exact ⟨ha, (elemL_eq_false n db).mp (by simpa using hb)⟩
    · rintro ⟨ha, hb⟩
      exact ⟨ha, by simpa using (elemL_eq_false n db).mpr hb⟩

/-- Claim C6, witness: the claim's own example — section methods
`a, b, c` against the vocabulary `a, c` report exactly the missing list
`b`. -/
theorem claim6_witness :
    (str ("  missing_mem_list=b")) ∈
      reportOf [(str ("S"), [str ("a"), str ("b"), str ("c")])]
        [str ("a"), str ("c")] [] := by
  have h := (claim6_missing_exact [(str ("S"), [str ("a"), str ("b"), str ("c")])]
    [str ("a"), str ("c")] [] (str ("S")) [str ("a"), str ("b"), str ("c")]
    (by decide)).1 (by decide)
  have he : (str ("  missing_mem_list=") ++ joinSep (str (", "))
      (([str ("a"), str ("b"), str ("c")].filter
          (fun n => !(decide (n = str ("constructor"))))).filter
        (fun n => !(elemL n [str ("a"), str ("c")]))))
      = str ("  missing_mem_list=b") := by decide
  rw [← he]
  exact h

/-- Claim C8: the coverage report — and hence its joined text — is
invariant under replacing either vocabulary by any membership-equivalent
one (any reordering or duplication, i.e. any hash-iteration order of the
Python set), and the contracts generator takes no vocabulary at all; so
for fixed inputs the pipeline's two output texts are byte-identical across
runs, with no hashing-order dependence. -/
theorem claim8_output_deterministic (secs : List (List Char × List (List Char)))
    (mem mem' db db' : List (List Char))
    (h1 : ∀ n, n ∈ mem ↔ n ∈ mem') (h2 : ∀ n, n ∈ db ↔ n ∈ db') :
    reportOf secs mem db = reportOf secs mem' db'
    ∧ joinNl (reportOf secs mem db) = joinNl (reportOf secs mem' db') := by
  have hm := elemL_congr mem mem' h1
  have hd := elemL_congr db db' h2
  have hs : summaryBlock mem db = summaryBlock mem' db' := by
    funext p
    simp only [summaryBlock, hm, hd]
  have hdt : detailBlock mem db = detailBlock mem' db' := by
    funext p
    simp only [detailBlock, hm, hd]
  have hr : reportOf secs mem db = reportOf secs mem' db' := by
    rw [reportOf, reportOf, hs, hdt]
  exact ⟨hr, congrArg joinNl hr⟩

/-- Claim C8, witness: the theorem applied to a duplicated, reordered copy
of the vocabularies. -/
theorem claim8_witness :
    reportOf [(str ("S"), [str ("a"), str ("b")])] [str ("a")] [str ("b")]
      = reportOf [(str ("S"), [str ("a"), str ("b")])]
          [str ("a"), str ("a")] [str ("b"), str ("b")] :=
  (claim8_output_deterministic [(str ("S"), [str ("a"), str ("b")])]
    [str ("a")] [str ("a"), str ("a")] [str ("b")] [str ("b"), str ("b")]
    (by intro n; simp) (by intro n; simp)).1

lemma cg_foldl (secs : List (List Char × List (List Char))) :
    ∀ (cfg : List (List Char × List Char × List Char))
      (st : List (List Char) × List (List Char × List Char)),
    cfg.foldl (cgStep secs) st
      = (st.1 ++ (emittedDomains cfg secs).map
            (fun e => typeBlock e.2.1 (filteredMethods secs e.1)),
         st.2 ++ (emittedDomains cfg secs).map (fun e => (e.2.2, e.2.1))) := by
  intro cfg
  induction cfg with
  | nil => intro st; simp [emittedDomains]
  | cons e cfg ih =>
    intro st
    rw [List.foldl_cons]
    by_cases hms : filteredMethods secs e.1 = []
    · rw [show cgStep secs st e = st from by simp [cgStep, hms]]
      rw [ih st]
      have hed : emittedDomains (e :: cfg) secs = emittedDomains cfg secs := by
        simp [emittedDomains, List.filter_cons, hms]
      rw [hed]
    · rw [show cgStep secs st e
          = (st.1 ++ [typeBlock e.2.1 (filteredMethods secs e.1)],
             st.2 ++ [(e.2.2, e.2.1)]) from by simp [cgStep, hms]]
      rw [ih]
      have hed : emittedDomains (e :: cfg) secs = e :: emittedDomains cfg secs := by
        simp [emittedDomains, List.filter_cons, hms]
      rw [hed, List.map_cons, List.map_cons]
      simp [List.append_assoc]

lemma repository_entries_eq (cfg : List (List Char × List Char × List Char))
    (secs : List (List Char × List (List Char))) :
    repository_entries cfg secs
      = (emittedDomains cfg secs).map (fun e => (e.2.2, e.2.1)) := by
  rw [repository_entries, contractsAndEntries, cg_foldl]
  simp

lemma contractsHead_eq (cfg : List (List Char × List Char × List Char))
    (secs : List (List Char × List (List Char))) :
    (contractsAndEntries cfg secs).1
      = [importLine, []] ++ (emittedDomains cfg secs).map
          (fun e => typeBlock e.2.1 (filteredMethods secs e.1)) := by
  rw [contractsAndEntries, cg_foldl]

/-- Claim C7: over the actual `SECTION_CONFIG`, a narrowed contract type
(equivalently, its `(property, type)` entry, appended in the same loop
iteration as the type block) is emitted if and only if the section mapping
holds the configured section title with at least one non-constructor
method; and every emitted entry arises from a configured domain passing
that test — so empty sections, absent titles, and unconfigured sections
yield no narrowed type. -/
theorem claim7_emitted_iff_nonempty (secs : List (List Char × List (List Char))) :
    (∀ sec tn pn : List Char, (sec, (tn, pn)) ∈ SECTION_CONFIG →
      ((pn, tn) ∈ repository_entries SECTION_CONFIG secs ↔
        filteredMethods secs sec ≠ []))
    ∧ (∀ pn tn : List Char, (pn, tn) ∈ repository_entries SECTION_CONFIG secs →
        ∃ sec, (sec, (tn, pn)) ∈ SECTION_CONFIG ∧ filteredMethods secs sec ≠ []) := by
  have hkey : ∀ e ∈ SECTION_CONFIG, ∀ f ∈ SECTION_CONFIG, e.2 = f.2 → e.1 = f.1 := by
    decide
  constructor
  · intro sec tn pn hmem
    rw [repository_entries_eq]
    constructor
    · intro hin
      rcases List.mem_map.mp hin with ⟨e, he, hfe⟩
      rcases List.mem_filter.mp he with ⟨heC, hgd⟩
      have h22 : e.2.2 = pn := congrArg Prod.fst hfe
      have h21 : e.2.1 = tn := congrArg Prod.snd hfe
      have he2 : e.2 = (tn, pn) := by
        rw [← h21, ← h22]
      have h1 : e.1 = sec := hkey e heC (sec, (tn, pn)) hmem (by rw [he2])
      rw [← h1]
      exact of_decide_eq_true hgd
    · intro hne
      exact List.mem_map.mpr
        ⟨(sec, (tn, pn)), List.mem_filter.mpr ⟨hmem, decide_eq_true hne⟩, rfl⟩
  · intro pn tn hin
    rw [repository_entries_eq] at hin
    rcases List.mem_map.mp hin with ⟨e, he, hfe⟩
    rcases List.mem_filter.mp he with ⟨heC, hgd⟩
    refine ⟨e.1, ?_, of_decide_eq_true hgd⟩
    have h22 : e.2.2 = pn := congrArg Prod.fst hfe
    have h21 : e.2.1 = tn := congrArg Prod.snd hfe
    have he2 : e = (e.1, (tn, pn)) := by
      rw [← h21, ← h22]
    rw [← he2]
    exact heC

/-- Claim C7, witness: the `Deals` domain with one method emits its entry;
the theorem applied at a one-section mapping. -/
theorem claim7_witness :
    (str ("deals"), str ("DealRepository"))
      ∈ repository_entries SECTION_CONFIG [(str ("Deals"), [str ("getDeal")])] :=
  ((claim7_emitted_iff_nonempty [(str ("Deals"), [str ("getDeal")])]).1
    (str ("Deals")) (str ("DealRepository")) (str ("deals")) (by decide)).mpr
    (by decide)

/-- Claim C10: the generation loop appends exactly one type block and one
`(property, type)` entry per configuration entry passing the
non-constructor-method guard, in configuration order; the aggregate
interface block and the factory block of the artifact each list exactly
the collected entries, in that same order — so the aggregate and the
factory agree pair for pair, with no property for a skipped domain. -/
theorem claim10_aggregate_factory_agree
    (cfg : List (List Char × List Char × List Char))
    (secs : List (List Char × List (List Char))) :
    repository_entries cfg secs
        = (emittedDomains cfg secs).map (fun e => (e.2.2, e.2.1))
    ∧ (contractsAndEntries cfg secs).1
        = [importLine, []] ++ (emittedDomains cfg secs).map
            (fun e => typeBlock e.2.1 (filteredMethods secs e.1))
    ∧ contractsOf cfg secs
        = (contractsAndEntries cfg secs).1 ++
            [str ("export interface StorageRepositories \x7b")] ++
            (repository_entries cfg secs).map aggLine ++
            [str ("\x7d\n"),
             str ("export const createStorageRepositories = (storage: IStorage): StorageRepositories => (\x7b")] ++
            (repository_entries cfg secs).map facLine ++
            [str ("\x7d);\n")] :=
  ⟨repository_entries_eq cfg secs, contractsHead_eq cfg secs, rfl⟩

lemma beginsWith_append_of (p q s : List Char)
    (h : beginsWith (p ++ q) s = true) : beginsWith p s = true := by
  induction p generalizing s with
  | nil => rfl
  | cons a p ih =>
    cases s with
    | nil => exact absurd h (by simp [beginsWith])
    | cons c cs =>
      rw [List.cons_append, beginsWith, Bool.and_eq_true] at h
      rw [beginsWith, Bool.and_eq_true]
      exact ⟨h.1, ih cs h.2⟩

lemma beginsWith_self_append (p s : List Char) : beginsWith p (p ++ s) = true := by
  induction p with
  | nil => rfl
  | cons a p ih => simp [beginsWith, ih]

lemma beginsWith_implies_hasSub (p s : List Char)
    (h : beginsWith p s = true) : hasSub p s = true := by
  cases s with
  | nil => exact h
  | cons c cs => rw [hasSub, h, Bool.true_or]

lemma takeWhile_append_all (p : Char → Bool) (A B : List Char)
    (h : ∀ a ∈ A, p a = true) :
    (A ++ B).takeWhile p = A ++ B.takeWhile p := by
  induction A with
  | nil => rfl
  | cons a A ih =>
    rw [List.cons_append, List.takeWhile_cons, if_pos (h a (by simp)),
      ih (fun x hx => h x (by simp [hx])), List.cons_append]

lemma identChar_not_space (c : Char) (h : identChar c = true) : isPySpace c = false := by
  cases hs : isPySpace c
  · rfl
  · exfalso
    rw [isPySpace] at hs
    simp only [Bool.or_eq_true, beq_iff_eq] at hs
    rcases hs with ((((h1 | h1) | h1) | h1) | h1) | h1 <;>
      (subst h1; exact absurd h (by decide))

lemma identChar_ne (c d : Char) (h : identChar c = true) (hd : identChar d = false) :
    ¬ c = d := by
  intro hc
  subst hc
  rw [h] at hd
  exact Bool.noConfusion hd

lemma pyStrip_noop (c d : Char) (mid : List Char)
    (hc : isPySpace c = false) (hd : isPySpace d = false) :
    pyStrip (c :: (mid ++ [d])) = c :: (mid ++ [d]) := by
  simp [pyStrip, List.dropWhile_cons, hc, hd]

lemma closeThenBrace_end (xs : List Char) :
    closeThenBrace (xs ++ [')', ' ', '\x7b']) = true := by
  induction xs with
  | nil => decide
  | cons c xs ih => rw [List.cons_append, closeThenBrace, ih, Bool.or_true]

lemma wsTokensGo_noWs (rest : List Char) (h : ∀ c ∈ rest, isPySpace c = false) :
    ∀ acc, wsTokensGo acc rest
      = if acc.reverse ++ rest = [] then [] else [acc.reverse ++ rest] := by
  induction rest with
  | nil =>
    intro acc
    by_cases ha : acc = []
    · subst ha; simp [wsTokensGo]
    · rw [wsTokensGo, if_neg ha, List.append_nil,
        if_neg (fun hc => ha (by simpa using congrArg List.reverse hc))]
  | cons c cs ih =>
    intro acc
    rw [wsTokensGo, h c (by simp), if_neg Bool.false_ne_true]
    rw [ih (fun x hx => h x (by simp [hx])) (c :: acc)]
    have he : (c :: acc).reverse ++ cs = acc.reverse ++ (c :: cs) := by
      simp
    rw [he]

lemma beginsWith_cons_ne (p c : Char) (ps cs : List Char) (h : ¬ p = c) :
    beginsWith (p :: ps) (c :: cs) = false := by
  rw [beginsWith, beq_eq_false_iff_ne.mpr h, Bool.false_and]

/-- Claim C4, counterexample: the method name `asyncFoo` contains `async`
as a substring, so its synchronous declaration `asyncFoo(x) \x7b` is
rejected by the synchronous branch (which requires `async` absent from
the line) and the vocabulary comes out empty, while the asynchronous
declaration of the very same name is extracted — the vocabulary does
depend on the declaration shape. -/
theorem claim4_counterexample :
    extract_methods (str ("class A \x7b\n  asyncFoo(x) \x7b\n  \x7d\n\x7d")) (str ("A")) = []
    ∧ extract_methods (str ("class A \x7b\n  async asyncFoo(x) \x7b\n  \x7d\n\x7d")) (str ("A"))
        = [str ("asyncFoo")] := by decide

/-- Claim C4 (amended): for a nonempty identifier method name, provided the
full synchronous line contains neither `async` nor `constructor` as a
substring, the synchronous shape `name(args) \x7b` and the asynchronous
shape `async name(args)` are normalized by the line scanner to the same
extracted identifier `name`.  The hypothesis on `args` not containing a
newline restricts the statement to genuine single lines, the only inputs
the Python per-line loop ever passes to this logic. -/
theorem claim4_async_sync_normalize (name args : List Char)
    (h1 : name ≠ [])
    (h2 : ∀ c ∈ name, identChar c = true)
    (h3 : hasSub (str ("async")) (name ++ '(' :: (args ++ [')', ' ', '\x7b'])) = false)
    (h4 : hasSub (str ("constructor")) (name ++ '(' :: (args ++ [')', ' ', '\x7b'])) = false)
    (h5 : ∀ c ∈ args, ¬ c = '\n') :
    methodNameOfLine (name ++ '(' :: (args ++ [')', ' ', '\x7b'])) = some name
    ∧ methodNameOfLine (str ("async ") ++ name ++ '(' :: (args ++ [')'])) = some name := by
  obtain ⟨n0, nrest, rfl⟩ : ∃ n0 nrest, name = n0 :: nrest := by
    cases name with
    | nil => exact absurd rfl h1
    | cons a l => exact ⟨a, l, rfl⟩
  have hidp : identChar '(' = false := by decide
  constructor
  · -- synchronous shape
    have hL : (n0 :: nrest) ++ '(' :: (args ++ [')', ' ', '\x7b'])
        = n0 :: ((nrest ++ '(' :: (args ++ [')', ' '])) ++ ['\x7b']) := by simp
    have hstrip : pyStrip ((n0 :: nrest) ++ '(' :: (args ++ [')', ' ', '\x7b']))
        = (n0 :: nrest) ++ '(' :: (args ++ [')', ' ', '\x7b']) := by
      rw [hL]
      exact pyStrip_noop n0 '\x7b' _ (identChar_not_space n0 (h2 n0 (by simp))) (by decide)
    have hsl : beginsWith (str ("//")) ((n0 :: nrest) ++ '(' :: (args ++ [')', ' ', '\x7b'])) = false := by
      have hne : ¬ ('/' : Char) = n0 :=
        fun hc => (identChar_ne n0 '/' (h2 n0 (by simp)) (by decide)) hc.symm
      exact beginsWith_cons_ne '/' n0 _ _ hne
    have hac : beginsWith (str ("async ")) ((n0 :: nrest) ++ '(' :: (args ++ [')', ' ', '\x7b'])) = false := by
      cases hb : beginsWith (str ("async ")) ((n0 :: nrest) ++ '(' :: (args ++ [')', ' ', '\x7b']))
      · rfl
      · exfalso
        have h6 : beginsWith (str ("async")) ((n0 :: nrest) ++ '(' :: (args ++ [')', ' ', '\x7b'])) = true :=
          beginsWith_append_of (str ("async")) [' '] _ (by exact hb)
        rw [beginsWith_implies_hasSub _ _ h6] at h3
        exact Bool.noConfusion h3
    have htake : ((n0 :: nrest) ++ '(' :: (args ++ [')', ' ', '\x7b'])).takeWhile identChar
        = n0 :: nrest := by
      rw [takeWhile_append_all identChar _ _ h2, List.takeWhile_cons,
        if_neg (by decide), List.append_nil]
    have hdrop : ((n0 :: nrest) ++ '(' :: (args ++ [')', ' ', '\x7b'])).drop
        (n0 :: nrest).length = '(' :: (args ++ [')', ' ', '\x7b']) :=
      List.drop_left _ _
    have hsync : syncDecl ((n0 :: nrest) ++ '(' :: (args ++ [')', ' ', '\x7b'])) = true := by
      simp only [syncDecl]
      rw [htake, hdrop]
      exact closeThenBrace_end args
    have ptake : ((n0 :: nrest) ++ '(' :: (args ++ [')', ' ', '\x7b'])).takeWhile
        (fun c => !(c == '(')) = n0 :: nrest := by
      rw [takeWhile_append_all _ _ _
          (fun a ha => by
            rw [beq_eq_false_iff_ne.mpr (identChar_ne a '(' (h2 a ha) hidp)]
            rfl),
        List.takeWhile_cons, if_neg (by decide), List.append_nil]
    simp only [methodNameOfLine]
    rw [hstrip, hsl, hac]
    rw [if_neg (show ¬ ((n0 :: nrest) ++ '(' :: (args ++ [')', ' ', '\x7b']) = []) from by simp)]
    rw [if_neg Bool.false_ne_true, if_neg Bool.false_ne_true]
    rw [hsync, h3, h4]
    rw [if_pos (show (true && !false && !false) = true from rfl)]
    rw [ptake]
  · -- asynchronous shape
    have hsa : str ("async ") = 'a' :: str ("sync ") := rfl
    have hM : str ("async ") ++ (n0 :: nrest) ++ '(' :: (args ++ [')'])
        = 'a' :: ((str ("sync ") ++ ((n0 :: nrest) ++ '(' :: args)) ++ [')']) := by
      rw [hsa]
      simp
    have hstrip2 : pyStrip (str ("async ") ++ (n0 :: nrest) ++ '(' :: (args ++ [')']))
        = str ("async ") ++ (n0 :: nrest) ++ '(' :: (args ++ [')']) := by
      rw [hM]
      exact pyStrip_noop 'a' ')' _ (by decide) (by decide)
    have hbsl : beginsWith (str ("//")) (str ("async ") ++ (n0 :: nrest) ++ '(' :: (args ++ [')'])) = false := rfl
    have hbA : beginsWith (str ("async ")) (str ("async ") ++ (n0 :: nrest) ++ '(' :: (args ++ [')'])) = true := by
      rw [List.append_assoc]
      exact beginsWith_self_append _ _
    have htakeM : (str ("async ") ++ (n0 :: nrest) ++ '(' :: (args ++ [')'])).takeWhile
        (fun c => !(c == '(')) = str ("async ") ++ (n0 :: nrest) := by
      rw [List.append_assoc,
        takeWhile_append_all _ _ _ (by decide : ∀ a ∈ str ("async "), (!(a == '(')) = true),
        takeWhile_append_all _ _ _
          (fun a ha => by
            rw [beq_eq_false_iff_ne.mpr (identChar_ne a '(' (h2 a ha) hidp)]
            rfl),
        List.takeWhile_cons, if_neg (by decide), List.append_nil]
    have hsplit : pySplitWs (str ("async ") ++ (n0 :: nrest))
        = str ("async") :: wsTokensGo [] (n0 :: nrest) := rfl
    have hz : wsTokensGo ([] : List Char) (n0 :: nrest) = [n0 :: nrest] := by
      rw [wsTokensGo_noWs (n0 :: nrest) (fun c hc => identChar_not_space c (h2 c hc)) []]
      simp
    simp only [methodNameOfLine]
    rw [hstrip2, hbsl, hbA]
    rw [if_neg (show ¬ (str ("async ") ++ (n0 :: nrest) ++ '(' :: (args ++ [')']) = []) from by simp)]
    rw [if_neg Bool.false_ne_true, if_pos (show (true : Bool) = true from rfl)]
    rw [htakeM, hsplit, hz]
    rfl

/-- Claim C4, witness: the amended theorem applied to the method name
`getUser` with parameter text `id: string`. -/
theorem claim4_witness :
    methodNameOfLine (str ("getUser") ++ '(' :: (str ("id: string") ++ [')', ' ', '\x7b']))
        = some (str ("getUser"))
    ∧ methodNameOfLine (str ("async ") ++ str ("getUser") ++ '(' :: (str ("id: string") ++ [')']))
        = some (str ("getUser")) :=
  claim4_async_sync_normalize (str ("getUser")) (str ("id: string"))
    (by decide) (by decide) (by decide) (by decide) (by decide)
